import Mathlib

/-!
# Verification of the wordlers guess-evaluation core

A shallow embedding of the board engine of `src/game.rs` and the word bank of
`src/words.rs`.  Rust strings are embedded as `List Char` (the words involved
are ASCII, so byte indices and character indices coincide), the five-cell array
of a row as `Fin 5 → Cell`, and the six-row board as `Fin 6 → BoardRow`.
In-place mutation becomes explicit state passing: every event handler returns
the pair of its `bool` result and the updated state.  The `expect` panic of
`check_guess` is modelled by an `Option` result.
-/

/-- `char::to_ascii_lowercase` / `str::to_ascii_lowercase` (per character). -/
def asciiToLower (c : Char) : Char :=
  if 65 ≤ c.toNat ∧ c.toNat ≤ 90 then Char.ofNat (c.toNat + 32) else c

/-- `char::to_ascii_uppercase`. -/
def asciiToUpper (c : Char) : Char :=
  if 97 ≤ c.toNat ∧ c.toNat ≤ 122 then Char.ofNat (c.toNat - 32) else c

/-- `char::is_ascii_alphabetic`. -/
def isAsciiAlphabetic (c : Char) : Bool :=
  decide ((65 ≤ c.toNat ∧ c.toNat ≤ 90) ∨ (97 ≤ c.toNat ∧ c.toNat ≤ 122))

/-- The `Cell` enum of `game.rs`: a single letter cell. -/
inductive Cell where
  | Pending : Option Char → Cell
  | NotInWord : Char → Cell
  | InWord : Char → Cell
  | Correct : Char → Cell
deriving DecidableEq, Repr

/-- `Cell::not_in_word`: update a `Pending` cell holding a letter to
`NotInWord`; no effect on a finalized or empty cell. -/
def Cell.not_in_word : Cell → Cell
  | .Pending (some l) => .NotInWord l
  | c => c

/-- `Cell::in_word`: update a `Pending` cell holding a letter to `InWord`;
no effect on a finalized or empty cell. -/
def Cell.in_word : Cell → Cell
  | .Pending (some l) => .InWord l
  | c => c

/-- `Cell::correct`: update a `Pending` cell holding a letter to `Correct`;
no effect on a finalized or empty cell. -/
def Cell.correct : Cell → Cell
  | .Pending (some l) => .Correct l
  | c => c

/-- The letter stored in a cell, if any (the `match` inside
`BoardRow::get_final_word`). -/
def Cell.letterOf : Cell → Option Char
  | .Pending none => none
  | .Pending (some l) => some l
  | .NotInWord l => some l
  | .InWord l => some l
  | .Correct l => some l

/-- The `BoardRow` struct: five cells and the edit cursor. -/
structure BoardRow where
  cells : Fin 5 → Cell
  current_cell : Option Nat

/-- `BoardRow::empty`. -/
def BoardRow.empty : BoardRow :=
  { cells := fun _ => Cell.Pending none, current_cell := none }

/-- `BoardRow::get_final_word`: if all cells hold a letter, the lowercased
word they spell, otherwise `None`. -/
def BoardRow.get_final_word (r : BoardRow) : Option (List Char) :=
  match (r.cells 0).letterOf, (r.cells 1).letterOf, (r.cells 2).letterOf,
      (r.cells 3).letterOf, (r.cells 4).letterOf with
  | some a, some b, some c, some d, some e => some ([a, b, c, d, e].map asciiToLower)
  | _, _, _, _, _ => none

/-- Write through `&mut self.cells[i]`, embedded as a pointwise update
(an index `i ≥ 5` touches nothing; it is never reached by the source). -/
def setCell (cs : Fin 5 → Cell) (i : Nat) (f : Cell → Cell) : Fin 5 → Cell :=
  fun j => if j.val = i then f (cs j) else cs j

/-- `BoardRow::try_accept_letter`: write the letter at the cursor and advance
it; reports whether a repaint is needed. -/
def BoardRow.try_accept_letter (r : BoardRow) (letter : Char) : Bool × BoardRow :=
  match r.current_cell with
  | some i =>
      if i < 5 then
        (true, { r with
                  cells := setCell r.cells i (fun _ => Cell.Pending (some letter))
                  current_cell := some (i + 1) })
      else (false, r)
  | none => (false, r)

/-- `BoardRow::try_delete_letter`: step the cursor back and empty that cell;
reports whether a repaint is needed. -/
def BoardRow.try_delete_letter (r : BoardRow) : Bool × BoardRow :=
  match r.current_cell with
  | some i =>
      if i > 0 then
        (true, { r with
                  current_cell := some (i - 1)
                  cells := setCell r.cells (i - 1) (fun _ => Cell.Pending none) })
      else (false, r)
  | none => (false, r)

/-- The entry of `get_char_map s` for letter `L` inside `check_guess`: the
ascending list of the indices of `s` at which `L` occurs (the
`char_indices` fold pushes indices in ascending order). -/
def positionsOf (s : List Char) (L : Char) : List Nat :=
  (List.range s.length).filter (fun i => decide (s.get? i = some L))

/-- The first `for` loop over `guess_indices` in `check_guess` ("start with
exact matches"): marks exact positions `Correct`, counts them in
`num_reported`, and collects the rest into `potential_yellows`. -/
def passExact (aIdx : List Nat) :
    List Nat → ((Fin 5 → Cell) × Nat × List Nat) → (Fin 5 → Cell) × Nat × List Nat
  | [], acc => acc
  | i :: rest, acc =>
      if i ∈ aIdx then
        passExact aIdx rest (setCell acc.1 i Cell.correct, acc.2.1 + 1, acc.2.2)
      else
        passExact aIdx rest (acc.1, acc.2.1, acc.2.2 ++ [i])

/-- The second `for` loop over `potential_yellows` in `check_guess`: fill in
yellows left to right while `num_reported` is below the answer count. -/
def passRemaining (acount : Nat) :
    List Nat → ((Fin 5 → Cell) × Nat) → (Fin 5 → Cell) × Nat
  | [], acc => acc
  | i :: rest, acc =>
      if acc.2 < acount then
        passRemaining acount rest (setCell acc.1 i Cell.in_word, acc.2 + 1)
      else
        passRemaining acount rest (setCell acc.1 i Cell.not_in_word, acc.2)

/-- The body of the per-distinct-letter loop of `check_guess` for one letter
`L`: if `L` is absent from the answer, mark all its positions `NotInWord`;
otherwise run the two passes. -/
def processLetter (guess answer : List Char) (cells : Fin 5 → Cell) (L : Char) :
    Fin 5 → Cell :=
  let gIdx := positionsOf guess L
  let aIdx := positionsOf answer L
  if aIdx.isEmpty then
    gIdx.foldl (fun cs i => setCell cs i Cell.not_in_word) cells
  else
    let p := passExact aIdx gIdx (cells, 0, [])
    (passRemaining aIdx.length p.2.2 (p.1, p.2.1)).1

/-- The whole letter loop of `check_guess`.  The Rust code iterates over a
`HashMap` whose order is unspecified; here the distinct letters of the guess
are enumerated by `List.dedup` (`checkGuess_independent_of_letter_order`
proves that any enumeration yields the same cells). -/
def checkGuessCells (cells : Fin 5 → Cell) (guess answer : List Char) : Fin 5 → Cell :=
  guess.dedup.foldl (processLetter guess answer) cells

/-- `BoardRow::check_guess`: finalize the cells of the row against the answer.
The source panics (`expect`) when the row is not complete; that failure is
modelled as `none`. -/
def BoardRow.check_guess (r : BoardRow) (answer : List Char) : Option BoardRow :=
  match r.get_final_word with
  | none => none
  | some guess => some { r with cells := checkGuessCells r.cells guess answer }

/-- The `Words` struct of `words.rs`: the answer pool and the valid-guess set. -/
structure Words where
  answers : List (List Char)
  valid_guesses : List (List Char)

/-- `Words::new`.  Modelled from the spec: the two dictionary files
`words/wordle-La.txt` and `words/wordle-Ta.txt` are not part of `src/`; per
spec section 6 they are newline-delimited lists of lowercase five-letter
words, so the parsed lists `la` and `ta` are taken as parameters.  The
valid-guess set is their union (`la` chained with `ta`). -/
def Words.new (la ta : List (List Char)) : Words :=
  { answers := la, valid_guesses := la ++ ta }

/-- `Words::valid_guess`: membership of the word in the valid-guess set. -/
def Words.valid_guess (w : Words) (word : List Char) : Bool :=
  w.valid_guesses.contains word

/-- The `Game` struct of `game.rs`. -/
structure Game where
  rows : Fin 6 → BoardRow
  current_row : Fin 6
  answer : List Char
  words : Words
  display_message : Option String
  has_won : Option Bool

/-- `Game::new`.  The source draws the answer from `words.get_answer()`
(a uniformly random choice from the answer pool); the chosen answer is
passed explicitly here.  After building the state it sets
`rows[0].current_cell = Some(0)`. -/
def Game.new (words : Words) (answer : List Char) : Game :=
  { rows := fun i =>
      if i.val = 0 then { BoardRow.empty with current_cell := some 0 } else BoardRow.empty
    current_row := 0
    answer := answer
    words := words
    display_message := none
    has_won := none }

/-- `Game::set_message`. -/
def Game.set_message (g : Game) (message : String) : Game :=
  { g with display_message := some message }

/-- `Game::clear_message`. -/
def Game.clear_message (g : Game) : Game :=
  { g with display_message := none }

/-- Writing back through `get_current_row()`: replace the active row. -/
def Game.setCurrentRow (g : Game) (r : BoardRow) : Game :=
  { g with rows := fun i => if i = g.current_row then r else g.rows i }

/-- `Game::try_accept_letter`: clear the message, then accept the uppercased
letter into the active row when it is ASCII-alphabetic. -/
def Game.try_accept_letter (g : Game) (letter : Char) : Bool × Game :=
  let g1 := g.clear_message
  if isAsciiAlphabetic letter then
    let res := (g1.rows g1.current_row).try_accept_letter (asciiToUpper letter)
    (res.1, g1.setCurrentRow res.2)
  else (false, g1)

/-- `Game::try_delete_letter`: clear the message, then delete in the active
row. -/
def Game.try_delete_letter (g : Game) : Bool × Game :=
  let g1 := g.clear_message
  let res := (g1.rows g1.current_row).try_delete_letter
  (res.1, g1.setCurrentRow res.2)

/-- The apostrophe character, used by the invalid-word message. -/
def apos : Char := Char.ofNat 39

/-- The advisory message `'<word>' is not a valid word!` built by
`try_submit_guess` (the braces of the Rust format string interpolate the
guess between the quotes). -/
def invalidWordMessage (guess : List Char) : String :=
  String.mk (apos :: (guess ++ apos :: " is not a valid word!".data))

/-- The `self.get_current_row().check_guess(answer)` step of
`try_submit_guess`: replace the active row by its finalized cells.  The
source recomputes the word inside `check_guess` and unwraps it; in the
branch where `get_final_word` already returned `Some(guess)` that is the
same as running `checkGuessCells` with `guess`. -/
def Game.checkCurrentRow (g1 : Game) (guess : List Char) : Game :=
  g1.setCurrentRow
    { g1.rows g1.current_row with
      cells := checkGuessCells (g1.rows g1.current_row).cells guess g1.answer }

/-- The `self.get_current_row().current_cell = Some(0)` step after
`current_row` was advanced. -/
def Game.enterNextRow (g3 : Game) : Game :=
  g3.setCurrentRow { g3.rows g3.current_row with current_cell := some 0 }

/-- The body of `try_submit_guess` once the active row is full and spells
`guess` (the message is already cleared in `g1`): validate the word, finalize
the row, and either win, advance, or lose. -/
def Game.submitCompleteRow (g1 : Game) (guess : List Char) : Bool × Game :=
  if g1.words.valid_guess guess = false then
    (true, g1.set_message (invalidWordMessage guess))
  else if guess = (g1.checkCurrentRow guess).answer then
    (true, { g1.checkCurrentRow guess with has_won := some true })
  else if h : (g1.checkCurrentRow guess).current_row.val < 5 then
    (true, ({ g1.checkCurrentRow guess with
        current_row := ⟨(g1.checkCurrentRow guess).current_row.val + 1, by omega⟩ }).enterNextRow)
  else
    (true, { g1.checkCurrentRow guess with has_won := some false })

/-- `Game::try_submit_guess`: clear the message; if the active row is full,
run `submitCompleteRow` on its word, otherwise report no repaint. -/
def Game.try_submit_guess (g : Game) : Bool × Game :=
  match (g.clear_message.rows g.clear_message.current_row).get_final_word with
  | none => (false, g.clear_message)
  | some guess => g.clear_message.submitCompleteRow guess

/-! ## List helpers -/

/-- The length of a filter is monotone in the predicate. -/
theorem filterLen_mono {α : Type} (p q : α → Bool) :
    ∀ l : List α, (∀ a ∈ l, p a = true → q a = true) →
      (l.filter p).length ≤ (l.filter q).length := by
  intro l
  induction l with
  | nil => intro _; simp
  | cons a t ih =>
    intro h
    have ht : ∀ x ∈ t, p x = true → q x = true :=
      fun x hx => h x (List.mem_cons_of_mem a hx)
    have ih' := ih ht
    by_cases hp : p a = true
    · have hq := h a (List.mem_cons_self a t) hp
      simp only [List.filter_cons, hp, hq, if_true, List.length_cons]
      omega
    · rw [Bool.not_eq_true] at hp
      cases hq : q a <;> simp only [List.filter_cons, hp, hq, List.length_cons] <;>
        simp <;> omega

/-- The length of a filter by a disjunction of disjoint predicates adds up. -/
theorem filterLen_or {α : Type} (p q : α → Bool) :
    ∀ l : List α, (∀ a ∈ l, ¬(p a = true ∧ q a = true)) →
      (l.filter (fun a => p a || q a)).length = (l.filter p).length + (l.filter q).length := by
  intro l
  induction l with
  | nil => intro _; simp
  | cons a t ih =>
    intro h
    have ht : ∀ x ∈ t, ¬(p x = true ∧ q x = true) :=
      fun x hx => h x (List.mem_cons_of_mem a hx)
    have ih' := ih ht
    have hna := h a (List.mem_cons_self a t)
    cases hp : p a <;> cases hq : q a <;>
      simp only [List.filter_cons, hp, hq, Bool.false_or, Bool.true_or, Bool.or_self,
        if_true, if_false, List.length_cons] <;> simp_all <;> omega

/-- Filtering `range n` with an extra bound `k < j` (for `j ≤ n`) is the same
as filtering `range j`. -/
theorem filterLen_range_lt (qB : Nat → Bool) (j n : Nat) (h : j ≤ n) :
    ((List.range n).filter (fun k => qB k && decide (k < j))).length
      = ((List.range j).filter qB).length := by
  obtain ⟨m, rfl⟩ : ∃ m, n = j + m := ⟨n - j, by omega⟩
  rw [List.range_add, List.filter_append]
  have h1 : (List.range j).filter (fun k => qB k && decide (k < j))
      = (List.range j).filter qB := by
    apply List.filter_congr
    intro a ha
    rw [List.mem_range] at ha
    simp [ha]
  have h2 : ((List.range m).map (fun x => j + x)).filter
      (fun k => qB k && decide (k < j)) = [] := by
    rw [List.filter_eq_nil_iff]
    intro a ha
    rw [List.mem_map] at ha
    obtain ⟨x, -, rfl⟩ := ha
    simp
  rw [h1, h2]
  simp

/-- Counting the positions of `range n` where `s.get?` yields `L` counts the
occurrences of `L` in the first `n` letters of `s`. -/
theorem filterLen_range_take (s : List Char) (L : Char) :
    ∀ n, ((List.range n).filter (fun k => decide (s.get? k = some L))).length
      = (s.take n).count L := by
  intro n
  induction n with
  | zero => simp
  | succ m ih =>
    rw [List.range_succ, List.filter_append, List.length_append, ih, List.take_succ,
      List.count_append]
    congr 1
    cases hm : s.get? m with
    | none =>
      have hm' : s[m]? = none := by rw [← List.get?_eq_getElem?]; exact hm
      rw [hm']
      simp only [List.filter_cons, List.filter_nil]
      simp [hm, hm']
    | some c =>
      rw [List.get?_eq_getElem?] at hm
      rw [hm]
      simp only [List.filter_cons, List.filter_nil]
      rw [← List.get?_eq_getElem?] at hm
      rw [hm]
      by_cases hc : c = L
      · subst hc
        simp [List.count_cons]
      · simp [List.count_cons, hc, Ne.symm hc]

/-! ## positionsOf lemmas -/

theorem mem_positionsOf {s : List Char} {L : Char} {i : Nat} :
    i ∈ positionsOf s L ↔ s.get? i = some L := by
  unfold positionsOf
  rw [List.mem_filter, List.mem_range]
  constructor
  · rintro ⟨-, h⟩
    exact of_decide_eq_true h
  · intro h
    refine ⟨?_, decide_eq_true h⟩
    rcases List.get?_eq_some.mp h with ⟨hl, -⟩
    exact hl

theorem positionsOf_pairwise (s : List Char) (L : Char) :
    (positionsOf s L).Pairwise (· < ·) :=
  List.Pairwise.filter _ (List.pairwise_lt_range s.length)

theorem positionsOf_nodup (s : List Char) (L : Char) : (positionsOf s L).Nodup :=
  (positionsOf_pairwise s L).imp (fun h => Nat.ne_of_lt h)

theorem length_positionsOf (s : List Char) (L : Char) :
    (positionsOf s L).length = s.count L := by
  unfold positionsOf
  rw [filterLen_range_take, List.take_length]

theorem positionsOf_isEmpty_iff (s : List Char) (L : Char) :
    (positionsOf s L).isEmpty = true ↔ s.count L = 0 := by
  rw [List.isEmpty_iff]
  constructor
  · intro h
    have hl := length_positionsOf s L
    rw [h] at hl
    simpa using hl.symm
  · intro h
    have hl := length_positionsOf s L
    rw [h] at hl
    exact List.length_eq_zero.mp hl

/-! ## Pointwise behaviour of the marking loops -/

theorem setCell_same {cs : Fin 5 → Cell} {i : Nat} {f : Cell → Cell} {j : Fin 5}
    (h : j.val = i) : setCell cs i f j = f (cs j) := by
  simp [setCell, h]

theorem setCell_other {cs : Fin 5 → Cell} {i : Nat} {f : Cell → Cell} {j : Fin 5}
    (h : j.val ≠ i) : setCell cs i f j = cs j := by
  simp [setCell, h]

theorem passExact_fst_not_mem (aIdx : List Nat) :
    ∀ (l : List Nat) (cs : Fin 5 → Cell) (n : Nat) (ys : List Nat) (j : Fin 5),
      j.val ∉ l → (passExact aIdx l (cs, n, ys)).1 j = cs j := by
  intro l
  induction l with
  | nil => intro cs n ys j _; rfl
  | cons i rest ih =>
    intro cs n ys j hj
    have hji : j.val ≠ i := fun h => hj (by rw [h]; exact List.mem_cons_self i rest)
    have hjr : j.val ∉ rest := fun h => hj (List.mem_cons_of_mem i h)
    by_cases hi : i ∈ aIdx
    · have hstep : passExact aIdx (i :: rest) (cs, n, ys)
          = passExact aIdx rest (setCell cs i Cell.correct, n + 1, ys) := by
        simp [passExact, hi]
      rw [hstep, ih _ _ _ j hjr, setCell_other hji]
    · have hstep : passExact aIdx (i :: rest) (cs, n, ys)
          = passExact aIdx rest (cs, n, ys ++ [i]) := by
        simp [passExact, hi]
      rw [hstep]
      exact ih _ _ _ j hjr

theorem passExact_fst_mem (aIdx : List Nat) :
    ∀ (l : List Nat), l.Nodup → ∀ (cs : Fin 5 → Cell) (n : Nat) (ys : List Nat)
      (j : Fin 5), j.val ∈ l →
      (passExact aIdx l (cs, n, ys)).1 j =
        if j.val ∈ aIdx then Cell.correct (cs j) else cs j := by
  intro l
  induction l with
  | nil => intro _ cs n ys j hj; cases hj
  | cons i rest ih =>
    intro hnd cs n ys j hj
    obtain ⟨hir, hrest⟩ := List.nodup_cons.mp hnd
    by_cases hi : i ∈ aIdx
    · have hstep : passExact aIdx (i :: rest) (cs, n, ys)
          = passExact aIdx rest (setCell cs i Cell.correct, n + 1, ys) := by
        simp [passExact, hi]
      rw [hstep]
      rcases List.mem_cons.mp hj with hji | hjr
      · rw [passExact_fst_not_mem aIdx rest _ _ _ j (by rw [hji]; exact hir)]
        rw [setCell_same hji, if_pos (by rw [hji]; exact hi)]
      · have hji : j.val ≠ i := fun h => hir (by rw [← h]; exact hjr)
        rw [ih hrest _ _ _ j hjr, setCell_other hji]
    · have hstep : passExact aIdx (i :: rest) (cs, n, ys)
          = passExact aIdx rest (cs, n, ys ++ [i]) := by
        simp [passExact, hi]
      rw [hstep]
      rcases List.mem_cons.mp hj with hji | hjr
      · rw [passExact_fst_not_mem aIdx rest _ _ _ j (by rw [hji]; exact hir)]
        rw [if_neg (by rw [hji]; exact hi)]
      · exact ih hrest _ _ _ j hjr

theorem passExact_snd (aIdx : List Nat) :
    ∀ (l : List Nat) (cs : Fin 5 → Cell) (n : Nat) (ys : List Nat),
      (passExact aIdx l (cs, n, ys)).2.1
        = n + (l.filter (fun i => decide (i ∈ aIdx))).length := by
  intro l
  induction l with
  | nil => intro cs n ys; rfl
  | cons i rest ih =>
    intro cs n ys
    by_cases hi : i ∈ aIdx
    · have hstep : passExact aIdx (i :: rest) (cs, n, ys)
          = passExact aIdx rest (setCell cs i Cell.correct, n + 1, ys) := by
        simp [passExact, hi]
      rw [hstep, ih, List.filter_cons]
      simp [hi]
      omega
    · have hstep : passExact aIdx (i :: rest) (cs, n, ys)
          = passExact aIdx rest (cs, n, ys ++ [i]) := by
        simp [passExact, hi]
      rw [hstep, ih, List.filter_cons]
      simp [hi]

theorem passExact_ys (aIdx : List Nat) :
    ∀ (l : List Nat) (cs : Fin 5 → Cell) (n : Nat) (ys : List Nat),
      (passExact aIdx l (cs, n, ys)).2.2
        = ys ++ l.filter (fun i => !decide (i ∈ aIdx)) := by
  intro l
  induction l with
  | nil => intro cs n ys; simp only [List.filter_nil, List.append_nil]; rfl
  | cons i rest ih =>
    intro cs n ys
    by_cases hi : i ∈ aIdx
    · have hstep : passExact aIdx (i :: rest) (cs, n, ys)
          = passExact aIdx rest (setCell cs i Cell.correct, n + 1, ys) := by
        simp [passExact, hi]
      rw [hstep, ih, List.filter_cons]
      simp [hi]
    · have hstep : passExact aIdx (i :: rest) (cs, n, ys)
          = passExact aIdx rest (cs, n, ys ++ [i]) := by
        simp [passExact, hi]
      rw [hstep, ih, List.filter_cons]
      simp [hi]

theorem passRemaining_fst_not_mem (A : Nat) :
    ∀ (ys : List Nat) (cs : Fin 5 → Cell) (n : Nat) (j : Fin 5),
      j.val ∉ ys → (passRemaining A ys (cs, n)).1 j = cs j := by
  intro ys
  induction ys with
  | nil => intro cs n j _; rfl
  | cons y rest ih =>
    intro cs n j hj
    have hjy : j.val ≠ y := fun h => hj (by rw [h]; exact List.mem_cons_self y rest)
    have hjr : j.val ∉ rest := fun h => hj (List.mem_cons_of_mem y h)
    by_cases hn : n < A
    · have hstep : passRemaining A (y :: rest) (cs, n)
          = passRemaining A rest (setCell cs y Cell.in_word, n + 1) := by
        simp [passRemaining, hn]
      rw [hstep, ih _ _ j hjr, setCell_other hjy]
    · have hstep : passRemaining A (y :: rest) (cs, n)
          = passRemaining A rest (setCell cs y Cell.not_in_word, n) := by
        simp [passRemaining, hn]
      rw [hstep, ih _ _ j hjr, setCell_other hjy]

theorem passRemaining_fst_mem (A : Nat) :
    ∀ (ys : List Nat), ys.Pairwise (· < ·) → ∀ (cs : Fin 5 → Cell) (n : Nat)
      (j : Fin 5), j.val ∈ ys →
      (passRemaining A ys (cs, n)).1 j =
        if n + ((ys.filter (fun k => decide (k < j.val))).length) < A
        then Cell.in_word (cs j) else Cell.not_in_word (cs j) := by
  intro ys
  induction ys with
  | nil => intro _ cs n j hj; cases hj
  | cons y rest ih =>
    intro hpw cs n j hj
    obtain ⟨hy, hrest⟩ := List.pairwise_cons.mp hpw
    rcases List.mem_cons.mp hj with hjy | hjr
    · -- the head is marked with the counter as it stands
      have hjr' : j.val ∉ rest := by
        intro hm
        have := hy _ hm
        omega
      have hfe : ((y :: rest).filter (fun k => decide (k < j.val))).length = 0 := by
        have : (y :: rest).filter (fun k => decide (k < j.val)) = [] := by
          rw [List.filter_eq_nil_iff]
          intro a ha
          rcases List.mem_cons.mp ha with rfl | har
          · simp
            omega
          · have := hy a har
            simp
            omega
        rw [this]
        rfl
      rw [hfe]
      by_cases hn : n < A
      · have hstep : passRemaining A (y :: rest) (cs, n)
            = passRemaining A rest (setCell cs y Cell.in_word, n + 1) := by
          simp [passRemaining, hn]
        rw [hstep, passRemaining_fst_not_mem A rest _ _ j hjr', setCell_same hjy,
          if_pos (by omega)]
      · have hstep : passRemaining A (y :: rest) (cs, n)
            = passRemaining A rest (setCell cs y Cell.not_in_word, n) := by
          simp [passRemaining, hn]
        rw [hstep, passRemaining_fst_not_mem A rest _ _ j hjr', setCell_same hjy,
          if_neg (by omega)]
    · -- j sits in the tail; the head contributes one to its rank
      have hylt : y < j.val := hy _ hjr
      have hjy : j.val ≠ y := by omega
      have hfl : ((y :: rest).filter (fun k => decide (k < j.val))).length
          = 1 + ((rest.filter (fun k => decide (k < j.val))).length) := by
        rw [List.filter_cons]
        simp [hylt]
        omega
      rw [hfl]
      by_cases hn : n < A
      · have hstep : passRemaining A (y :: rest) (cs, n)
            = passRemaining A rest (setCell cs y Cell.in_word, n + 1) := by
          simp [passRemaining, hn]
        rw [hstep, ih hrest _ _ j hjr, setCell_other hjy]
        have hiff : (n + 1 + (rest.filter (fun k => decide (k < j.val))).length < A)
            ↔ (n + (1 + (rest.filter (fun k => decide (k < j.val))).length) < A) := by
          omega
        by_cases hc : n + 1 + (rest.filter (fun k => decide (k < j.val))).length < A
        · rw [if_pos hc, if_pos (hiff.mp hc)]
        · rw [if_neg hc, if_neg (fun h => hc (hiff.mpr h))]
      · have hstep : passRemaining A (y :: rest) (cs, n)
            = passRemaining A rest (setCell cs y Cell.not_in_word, n) := by
          simp [passRemaining, hn]
        rw [hstep, ih hrest _ _ j hjr, setCell_other hjy]
        rw [if_neg (by omega), if_neg (by omega)]

/-! ## The spec-side classification -/

/-- The three classifications of the spec (`Absent`/`Present`/`Correct`). -/
inductive Mark where
  | Absent : Mark
  | Present : Mark
  | Correct : Mark
deriving DecidableEq, Repr

/-- Finalize a pending cell holding letter `l` according to a mark. -/
def markCell : Mark → Char → Cell
  | Mark.Absent, l => Cell.NotInWord l
  | Mark.Present, l => Cell.InWord l
  | Mark.Correct, l => Cell.Correct l

/-- The number of guess positions holding `L` where the answer has `L` at the
same position (spec pass 1: positions marked `Correct`). -/
def exactMatches (guess answer : List Char) (L : Char) : Nat :=
  ((List.range guess.length).filter
    (fun k => decide (guess.get? k = some L ∧ answer.get? k = some L))).length

/-- The number of guess positions before `i` holding `L` whose answer letter
differs (the non-exact positions that pass 2 visits before `i`). -/
def earlierMisses (guess answer : List Char) (L : Char) (i : Nat) : Nat :=
  ((List.range i).filter
    (fun k => decide (guess.get? k = some L ∧ ¬ answer.get? k = some L))).length

/-- Modelled from the spec: the `consumed` counter for letter `L` at the
moment pass 2 reaches position `i`, i.e. the number of positions of `L`
already marked `Correct` (all of pass 1) or `Present` (the earlier non-exact
positions, as long as the counter stayed below the answer count). -/
def consumed (guess answer : List Char) (L : Char) : Nat → Nat
  | 0 => exactMatches guess answer L
  | i + 1 =>
      consumed guess answer L i +
        if guess.get? i = some L ∧ ¬ answer.get? i = some L ∧
            consumed guess answer L i < answer.count L
        then 1 else 0

/-- Modelled from the spec: the two-pass classification of guess position `i`
(sections 4.2 and 8): `Absent` when the letter is absent from the answer,
`Correct` on an exact position, and otherwise `Present` exactly while the
number of positions of the letter already marked `Correct` or `Present` is
below the count of the letter in the answer. -/
def specClassify (guess answer : List Char) (i : Nat) : Mark :=
  match guess.get? i with
  | none => Mark.Absent
  | some L =>
      if answer.count L = 0 then Mark.Absent
      else if answer.get? i = some L then Mark.Correct
      else if consumed guess answer L i < answer.count L then Mark.Present
      else Mark.Absent

/-- The cell transformation that `check_guess` applies at position `i` when it
processes letter `L` (proved in `processLetter_apply`). -/
def letterMark (guess answer : List Char) (L : Char) (i : Nat) (c : Cell) : Cell :=
  if guess.get? i = some L then
    if answer.count L = 0 then Cell.not_in_word c
    else if answer.get? i = some L then Cell.correct c
    else if exactMatches guess answer L + earlierMisses guess answer L i < answer.count L
    then Cell.in_word c
    else Cell.not_in_word c
  else c

theorem exactMatches_le_count (guess answer : List Char) (L : Char) :
    exactMatches guess answer L ≤ answer.count L := by
  unfold exactMatches
  have h1 : ((List.range guess.length).filter
        (fun k => decide (guess.get? k = some L ∧ answer.get? k = some L))).length
      ≤ ((List.range guess.length).filter
        (fun k => decide (answer.get? k = some L))).length := by
    apply filterLen_mono
    intro a _ ha
    have := of_decide_eq_true ha
    exact decide_eq_true this.2
  have h2 := filterLen_range_take answer L guess.length
  have h3 : (answer.take guess.length).count L ≤ answer.count L := by
    have := (List.take_sublist guess.length answer).count_le L
    exact this
  omega

theorem earlierMisses_succ (guess answer : List Char) (L : Char) (i : Nat) :
    earlierMisses guess answer L (i + 1)
      = earlierMisses guess answer L i
        + (if guess.get? i = some L ∧ ¬ answer.get? i = some L then 1 else 0) := by
  unfold earlierMisses
  rw [List.range_succ, List.filter_append, List.length_append]
  congr 1
  by_cases h : guess.get? i = some L ∧ ¬ answer.get? i = some L
  · rw [if_pos h, List.filter_cons, if_pos (decide_eq_true h)]
    rfl
  · rw [if_neg h, List.filter_cons, if_neg (fun hc => h (of_decide_eq_true hc))]
    rfl

theorem consumed_eq (guess answer : List Char) (L : Char) :
    ∀ i, consumed guess answer L i
      = min (answer.count L) (exactMatches guess answer L + earlierMisses guess answer L i) := by
  intro i
  induction i with
  | zero =>
    have h0 : earlierMisses guess answer L 0 = 0 := by simp [earlierMisses]
    have hE := exactMatches_le_count guess answer L
    simp only [consumed, h0, Nat.add_zero]
    omega
  | succ m ih =>
    have hrec := earlierMisses_succ guess answer L m
    by_cases h : guess.get? m = some L ∧ ¬ answer.get? m = some L
    · by_cases hlt : consumed guess answer L m < answer.count L
      · have hstep : consumed guess answer L (m + 1) = consumed guess answer L m + 1 := by
          simp only [consumed]
          rw [if_pos ⟨h.1, h.2, hlt⟩]
        rw [hstep, hrec, if_pos h, ih]
        rw [ih] at hlt
        omega
      · have hstep : consumed guess answer L (m + 1) = consumed guess answer L m := by
          simp only [consumed]
          rw [if_neg (fun hc => hlt hc.2.2)]
          omega
        rw [hstep, hrec, if_pos h, ih]
        rw [ih] at hlt
        omega
    · have hstep : consumed guess answer L (m + 1) = consumed guess answer L m := by
        simp only [consumed]
        rw [if_neg (fun hc => h ⟨hc.1, hc.2.1⟩)]
        omega
      rw [hstep, hrec, if_neg h, ih]
      omega

theorem foldNot_not_mem :
    ∀ (l : List Nat) (cs : Fin 5 → Cell) (j : Fin 5), j.val ∉ l →
      (l.foldl (fun cs i => setCell cs i Cell.not_in_word) cs) j = cs j := by
  intro l
  induction l with
  | nil => intro cs j _; rfl
  | cons i rest ih =>
    intro cs j hj
    have hji : j.val ≠ i := fun h => hj (by rw [h]; exact List.mem_cons_self i rest)
    have hjr : j.val ∉ rest := fun h => hj (List.mem_cons_of_mem i h)
    rw [List.foldl_cons, ih _ j hjr, setCell_other hji]

theorem foldNot_mem :
    ∀ (l : List Nat), l.Nodup → ∀ (cs : Fin 5 → Cell) (j : Fin 5), j.val ∈ l →
      (l.foldl (fun cs i => setCell cs i Cell.not_in_word) cs) j
        = Cell.not_in_word (cs j) := by
  intro l
  induction l with
  | nil => intro _ cs j hj; cases hj
  | cons i rest ih =>
    intro hnd cs j hj
    obtain ⟨hir, hrest⟩ := List.nodup_cons.mp hnd
    rw [List.foldl_cons]
    rcases List.mem_cons.mp hj with hji | hjr
    · rw [foldNot_not_mem rest _ j (by rw [hji]; exact hir), setCell_same hji]
    · have hji : j.val ≠ i := fun h => hir (by rw [← h]; exact hjr)
      rw [ih hrest _ j hjr, setCell_other hji]

/-- `processLetter` with its `let` bindings expanded. -/
theorem processLetter_def (guess answer : List Char) (cells : Fin 5 → Cell) (L : Char) :
    processLetter guess answer cells L =
      if (positionsOf answer L).isEmpty then
        (positionsOf guess L).foldl (fun cs i => setCell cs i Cell.not_in_word) cells
      else
        (passRemaining (positionsOf answer L).length
          (passExact (positionsOf answer L) (positionsOf guess L) (cells, 0, [])).2.2
          ((passExact (positionsOf answer L) (positionsOf guess L) (cells, 0, [])).1,
            (passExact (positionsOf answer L) (positionsOf guess L) (cells, 0, [])).2.1)).1 := rfl

/-- The exact positions collected by pass 1 are counted by `exactMatches`. -/
theorem exactMatches_detect (guess answer : List Char) (L : Char) :
    ((positionsOf guess L).filter (fun i => decide (i ∈ positionsOf answer L))).length
      = exactMatches guess answer L := by
  have h : (positionsOf guess L).filter (fun i => decide (i ∈ positionsOf answer L))
      = (List.range guess.length).filter
          (fun a => decide (guess.get? a = some L ∧ answer.get? a = some L)) := by
    rw [show positionsOf guess L
        = (List.range guess.length).filter (fun i => decide (guess.get? i = some L)) from rfl]
    rw [List.filter_filter]
    apply List.filter_congr
    intro a _
    by_cases h1 : guess.get? a = some L <;> by_cases h2 : answer.get? a = some L <;>
      simp [h1, h2, mem_positionsOf, Bool.and_comm]
  rw [h]
  rfl

/-- The rank of a miss `j` inside `potential_yellows` is `earlierMisses`. -/
theorem earlierMisses_detect (guess answer : List Char) (L : Char) (j : Nat)
    (hj : j ≤ guess.length) :
    (((positionsOf guess L).filter (fun i => !decide (i ∈ positionsOf answer L))).filter
        (fun k => decide (k < j))).length
      = earlierMisses guess answer L j := by
  have h : ((positionsOf guess L).filter (fun i => !decide (i ∈ positionsOf answer L))).filter
        (fun k => decide (k < j))
      = (List.range guess.length).filter
          (fun k => (fun a => decide (guess.get? a = some L ∧ ¬ answer.get? a = some L)) k
            && decide (k < j)) := by
    rw [show positionsOf guess L
        = (List.range guess.length).filter (fun i => decide (guess.get? i = some L)) from rfl]
    rw [List.filter_filter, List.filter_filter]
    apply List.filter_congr
    intro a _
    by_cases h1 : guess.get? a = some L <;> by_cases h2 : answer.get? a = some L <;>
      by_cases h3 : a < j <;> simp [h1, h2, h3, mem_positionsOf, Bool.and_comm]
  rw [h, filterLen_range_lt _ j guess.length hj]
  rfl

/-- The pointwise effect of processing one letter: position `j` is updated by
`letterMark` applied to its old cell. -/
theorem processLetter_apply (guess answer : List Char) (cells : Fin 5 → Cell)
    (L : Char) (j : Fin 5) :
    processLetter guess answer cells L j = letterMark guess answer L j.val (cells j) := by
  rw [processLetter_def]
  by_cases hj : guess.get? j.val = some L
  · have hjg : j.val ∈ positionsOf guess L := mem_positionsOf.mpr hj
    have hjlen : j.val < guess.length := by
      rcases List.get?_eq_some.mp hj with ⟨h, -⟩
      exact h
    by_cases hA : (positionsOf answer L).isEmpty
    · rw [if_pos hA]
      have hcount : answer.count L = 0 := (positionsOf_isEmpty_iff answer L).mp hA
      rw [foldNot_mem _ (positionsOf_nodup guess L) _ j hjg]
      unfold letterMark
      rw [if_pos hj, if_pos hcount]
    · rw [if_neg hA]
      have hcount : ¬ answer.count L = 0 :=
        fun h => hA ((positionsOf_isEmpty_iff answer L).mpr h)
      have hysEq : (passExact (positionsOf answer L) (positionsOf guess L)
            (cells, 0, [])).2.2
          = (positionsOf guess L).filter (fun i => !decide (i ∈ positionsOf answer L)) := by
        rw [passExact_ys]
        exact List.nil_append _
      by_cases hex : answer.get? j.val = some L
      · have hja : j.val ∈ positionsOf answer L := mem_positionsOf.mpr hex
        have hjys : j.val ∉ (passExact (positionsOf answer L) (positionsOf guess L)
            (cells, 0, [])).2.2 := by
          rw [hysEq]
          intro hm
          have h2 := (List.mem_filter.mp hm).2
          rw [Bool.not_eq_true'] at h2
          exact absurd hja (of_decide_eq_false h2)
        rw [passRemaining_fst_not_mem _ _ _ _ j hjys]
        rw [passExact_fst_mem _ _ (positionsOf_nodup guess L) _ _ _ j hjg, if_pos hja]
        unfold letterMark
        rw [if_pos hj, if_neg hcount, if_pos hex]
      · have hja : j.val ∉ positionsOf answer L := fun h => hex (mem_positionsOf.mp h)
        have hjys : j.val ∈ (passExact (positionsOf answer L) (positionsOf guess L)
            (cells, 0, [])).2.2 := by
          rw [hysEq]
          exact List.mem_filter.mpr ⟨hjg, by simp [hja]⟩
        have hsort : ((positionsOf guess L).filter
            (fun i => !decide (i ∈ positionsOf answer L))).Pairwise (· < ·) :=
          List.Pairwise.filter _ (positionsOf_pairwise guess L)
        rw [hysEq]
        rw [passRemaining_fst_mem _ _ hsort _ _ j (by rw [hysEq] at hjys; exact hjys)]
        rw [passExact_fst_mem _ _ (positionsOf_nodup guess L) _ _ _ j hjg, if_neg hja]
        rw [passExact_snd]
        rw [length_positionsOf]
        rw [earlierMisses_detect guess answer L j.val (Nat.le_of_lt hjlen)]
        rw [exactMatches_detect]
        unfold letterMark
        rw [if_pos hj, if_neg hcount, if_neg hex]
        rw [Nat.zero_add]
  · have hjg : j.val ∉ positionsOf guess L := fun h => hj (mem_positionsOf.mp h)
    have hres : letterMark guess answer L j.val (cells j) = cells j := by
      unfold letterMark
      rw [if_neg hj]
    rw [hres]
    by_cases hA : (positionsOf answer L).isEmpty
    · rw [if_pos hA]
      exact foldNot_not_mem _ _ j hjg
    · rw [if_neg hA]
      have hjys : j.val ∉ (passExact (positionsOf answer L) (positionsOf guess L)
          (cells, 0, [])).2.2 := by
        rw [passExact_ys]
        simp only [List.nil_append]
        intro hm
        exact hjg (List.mem_of_mem_filter hm)
      rw [passRemaining_fst_not_mem _ _ _ _ j hjys]
      exact passExact_fst_not_mem _ _ _ _ _ j hjg

theorem letterMark_ne (guess answer : List Char) (L : Char) (i : Nat) (c : Cell)
    (h : ¬ guess.get? i = some L) : letterMark guess answer L i c = c := by
  unfold letterMark
  rw [if_neg h]

theorem foldl_processLetter_some (guess answer : List Char) (L : Char) (j : Fin 5)
    (hj : guess.get? j.val = some L) :
    ∀ (ls : List Char), ls.Nodup → ∀ (cells : Fin 5 → Cell),
      (ls.foldl (processLetter guess answer) cells) j
        = if L ∈ ls then letterMark guess answer L j.val (cells j) else cells j := by
  intro ls
  induction ls with
  | nil =>
    intro _ cells
    rw [if_neg (List.not_mem_nil L)]
    rfl
  | cons M rest ih =>
    intro hnd cells
    obtain ⟨hmr, hrest⟩ := List.nodup_cons.mp hnd
    rw [List.foldl_cons, ih hrest _]
    by_cases hLM : L = M
    · subst hLM
      rw [if_neg hmr, if_pos (List.mem_cons_self L rest)]
      rw [processLetter_apply]
    · have hpm : processLetter guess answer cells M j = cells j := by
        rw [processLetter_apply]
        exact letterMark_ne guess answer M j.val (cells j)
          (fun h => hLM (Option.some.inj (hj ▸ h)))
      rw [hpm]
      by_cases hr : L ∈ rest
      · rw [if_pos hr, if_pos (List.mem_cons_of_mem M hr)]
      · rw [if_neg hr, if_neg (fun hm => (List.mem_cons.mp hm).elim hLM hr)]

theorem foldl_processLetter_none (guess answer : List Char) (j : Fin 5)
    (hj : guess.get? j.val = none) :
    ∀ (ls : List Char) (cells : Fin 5 → Cell),
      (ls.foldl (processLetter guess answer) cells) j = cells j := by
  intro ls
  induction ls with
  | nil => intro cells; rfl
  | cons M rest ih =>
    intro cells
    rw [List.foldl_cons, ih]
    rw [processLetter_apply]
    exact letterMark_ne guess answer M j.val (cells j)
      (fun h => Option.noConfusion (hj ▸ h))

theorem checkGuessCells_apply_some (guess answer : List Char) (cells : Fin 5 → Cell)
    (L : Char) (j : Fin 5) (hj : guess.get? j.val = some L) :
    checkGuessCells cells guess answer j = letterMark guess answer L j.val (cells j) := by
  unfold checkGuessCells
  rw [foldl_processLetter_some guess answer L j hj guess.dedup (List.nodup_dedup guess) cells]
  rw [if_pos (List.mem_dedup.mpr (List.get?_mem hj))]

theorem letterMark_pending (guess answer : List Char) (L : Char) (i : Nat) (x : Char)
    (hj : guess.get? i = some L) :
    letterMark guess answer L i (Cell.Pending (some x))
      = markCell (specClassify guess answer i) x := by
  have hs : specClassify guess answer i
      = if answer.count L = 0 then Mark.Absent
        else if answer.get? i = some L then Mark.Correct
        else if consumed guess answer L i < answer.count L then Mark.Present
        else Mark.Absent := by
    unfold specClassify
    rw [hj]
  rw [hs]
  unfold letterMark
  rw [if_pos hj]
  by_cases h0 : answer.count L = 0
  · rw [if_pos h0, if_pos h0]
    rfl
  · rw [if_neg h0, if_neg h0]
    by_cases hex : answer.get? i = some L
    · rw [if_pos hex, if_pos hex]
      rfl
    · rw [if_neg hex, if_neg hex]
      have hcons := consumed_eq guess answer L i
      by_cases hlt : exactMatches guess answer L + earlierMisses guess answer L i
          < answer.count L
      · rw [if_pos hlt, if_pos (by rw [hcons]; omega)]
        rfl
      · rw [if_neg hlt, if_neg (by rw [hcons]; omega)]
        rfl

/-- A fully filled row holding the letters `letters`. -/
def pendingRow (letters : Fin 5 → Char) (cc : Option Nat) : BoardRow :=
  { cells := fun i => Cell.Pending (some (letters i)), current_cell := cc }

/-- The lowercased word spelled by the letters of a fully filled row. -/
def lowerWord (letters : Fin 5 → Char) : List Char :=
  [asciiToLower (letters 0), asciiToLower (letters 1), asciiToLower (letters 2),
    asciiToLower (letters 3), asciiToLower (letters 4)]

theorem get_final_word_pending (letters : Fin 5 → Char) (cc : Option Nat) :
    (pendingRow letters cc).get_final_word = some (lowerWord letters) := rfl

theorem lowerWord_get? (letters : Fin 5 → Char) (j : Fin 5) :
    (lowerWord letters).get? j.val = some (asciiToLower (letters j)) := by
  fin_cases j <;> rfl

theorem get_final_word_of_cells (r : BoardRow) (letters : Fin 5 → Char)
    (h : ∀ j, r.cells j = Cell.Pending (some (letters j))) :
    r.get_final_word = some (lowerWord letters) := by
  unfold BoardRow.get_final_word
  rw [h 0, h 1, h 2, h 3, h 4]
  rfl

/-- `checkGuessCells` on a fully filled row realizes the spec classification
at every position. -/
theorem checkGuessCells_of_cells (cells : Fin 5 → Cell) (letters : Fin 5 → Char)
    (answer : List Char) (h : ∀ j, cells j = Cell.Pending (some (letters j))) (j : Fin 5) :
    checkGuessCells cells (lowerWord letters) answer j
      = markCell (specClassify (lowerWord letters) answer j.val) (letters j) := by
  rw [checkGuessCells_apply_some (lowerWord letters) answer cells _ j (lowerWord_get? letters j)]
  rw [h j]
  exact letterMark_pending _ _ _ _ _ (lowerWord_get? letters j)

/-- C1: For every fully filled 5-letter guess row and every 5-letter answer,
the classification produced by `check_guess` follows the two-pass
per-distinct-letter procedure: a position whose letter is absent from the
answer is `Absent` (`NotInWord`); an exact position is `Correct`; every other
position of the letter is, in ascending order, `Present` (`InWord`) while the
number of positions of that letter already marked `Correct` or `Present`
(the `consumed` counter of `specClassify`) is below the count of the letter
in the answer, and `Absent` afterwards. -/
theorem check_guess_follows_two_pass_procedure (letters : Fin 5 → Char)
    (cc : Option Nat) (answer : List Char) (ha : answer.length = 5) :
    (pendingRow letters cc).check_guess answer
      = some { cells := fun j => markCell (specClassify (lowerWord letters) answer j.val)
                 (letters j)
               current_cell := cc } := by
  have h0 : (pendingRow letters cc).check_guess answer
      = some { pendingRow letters cc with
          cells := checkGuessCells (pendingRow letters cc).cells (lowerWord letters) answer } :=
    rfl
  rw [h0]
  exact congrArg some (congrArg (fun f => BoardRow.mk f cc)
    (funext (fun j => checkGuessCells_of_cells _ letters answer (fun _ => rfl) j)))

/-- Letters of the guess `GUCCI`, as typed on the board. -/
def gucciLetters : Fin 5 → Char := fun j => ['G', 'U', 'C', 'C', 'I'].getD j.val ' '

theorem check_guess_follows_two_pass_procedure_witness :
    ("cacti".data.length = 5) ∧
      (pendingRow gucciLetters none).check_guess "cacti".data
        = some { cells := fun j => markCell
                   (specClassify (lowerWord gucciLetters) "cacti".data j.val) (gucciLetters j)
                 current_cell := none } :=
  ⟨rfl, check_guess_follows_two_pass_procedure gucciLetters none "cacti".data rfl⟩

/-- C8: invoking `check_guess` on a row with an empty cell fails fast (the
`expect` panic, modelled as `none`) rather than classifying anything. -/
theorem check_guess_fails_on_incomplete_row (r : BoardRow) (answer : List Char)
    (j : Fin 5) (h : r.cells j = Cell.Pending none) :
    r.check_guess answer = none := by
  have hj : (r.cells j).letterOf = none := by rw [h]; rfl
  have hw : r.get_final_word = none := by
    unfold BoardRow.get_final_word
    fin_cases j <;>
    · rcases h0 : (r.cells 0).letterOf with _ | a <;>
      rcases h1 : (r.cells 1).letterOf with _ | b <;>
      rcases h2 : (r.cells 2).letterOf with _ | c <;>
      rcases h3 : (r.cells 3).letterOf with _ | d <;>
      rcases h4 : (r.cells 4).letterOf with _ | e <;>
      simp_all
  unfold BoardRow.check_guess
  rw [hw]

theorem check_guess_fails_on_incomplete_row_witness :
    ({ BoardRow.empty with current_cell := some 3 }.cells 3 = Cell.Pending none)
      ∧ { BoardRow.empty with current_cell := some 3 }.check_guess "heart".data = none :=
  ⟨rfl, check_guess_fails_on_incomplete_row _ "heart".data 3 rfl⟩

/-- C9: `check_guess` is deterministic although the source iterates over an
unordered hash map: folding the per-letter body over any duplicate-free
enumeration of the letters of the guess produces exactly the cells of
`checkGuessCells`, so the classification depends only on the guess and the
answer. -/
theorem check_guess_independent_of_letter_order (guess answer : List Char)
    (cells : Fin 5 → Cell) (ls : List Char) (h1 : ls.Nodup)
    (h2 : ∀ a ∈ ls, a ∈ guess) (h3 : ∀ a ∈ guess, a ∈ ls) :
    ls.foldl (processLetter guess answer) cells = checkGuessCells cells guess answer := by
  funext j
  cases hj : guess.get? j.val with
  | none =>
    rw [foldl_processLetter_none guess answer j hj ls cells]
    rw [show checkGuessCells cells guess answer
        = guess.dedup.foldl (processLetter guess answer) cells from rfl]
    rw [foldl_processLetter_none guess answer j hj guess.dedup cells]
  | some L =>
    rw [foldl_processLetter_some guess answer L j hj ls h1 cells]
    rw [checkGuessCells_apply_some guess answer cells L j hj]
    rw [if_pos (h3 L (List.get?_mem hj))]

theorem check_guess_independent_of_letter_order_witness :
    (['i', 'c', 'u', 'g'] : List Char).Nodup
      ∧ (∀ a ∈ (['i', 'c', 'u', 'g'] : List Char), a ∈ "gucci".data)
      ∧ (∀ a ∈ "gucci".data, a ∈ (['i', 'c', 'u', 'g'] : List Char))
      ∧ (['i', 'c', 'u', 'g'] : List Char).foldl
          (processLetter "gucci".data "cacti".data) (pendingRow gucciLetters none).cells
        = checkGuessCells (pendingRow gucciLetters none).cells "gucci".data "cacti".data :=
  ⟨by decide, by decide, by decide,
    check_guess_independent_of_letter_order "gucci".data "cacti".data
      (pendingRow gucciLetters none).cells ['i', 'c', 'u', 'g']
      (by decide) (by decide) (by decide)⟩

/-- The unit tests of `game.rs` replayed against the embedding:
`heart` vs `heart`. -/
theorem check_replay_heart :
    ∀ j : Fin 5, ((pendingRow (fun j => ['H', 'E', 'A', 'R', 'T'].getD j.val ' ') none).check_guess
        "heart".data).map (fun r => r.cells j)
      = some ([Cell.Correct 'H', Cell.Correct 'E', Cell.Correct 'A', Cell.Correct 'R',
          Cell.Correct 'T'].getD j.val (Cell.Pending none)) := by
  decide

/-- `sound` vs `heart`. -/
theorem check_replay_sound :
    ∀ j : Fin 5, ((pendingRow (fun j => ['S', 'O', 'U', 'N', 'D'].getD j.val ' ') none).check_guess
        "heart".data).map (fun r => r.cells j)
      = some ([Cell.NotInWord 'S', Cell.NotInWord 'O', Cell.NotInWord 'U', Cell.NotInWord 'N',
          Cell.NotInWord 'D'].getD j.val (Cell.Pending none)) := by
  decide

/-- `earth` vs `heart`. -/
theorem check_replay_earth :
    ∀ j : Fin 5, ((pendingRow (fun j => ['E', 'A', 'R', 'T', 'H'].getD j.val ' ') none).check_guess
        "heart".data).map (fun r => r.cells j)
      = some ([Cell.InWord 'E', Cell.InWord 'A', Cell.InWord 'R', Cell.InWord 'T',
          Cell.InWord 'H'].getD j.val (Cell.Pending none)) := by
  decide

/-- `gucci` vs `cacti`. -/
theorem check_replay_gucci :
    ∀ j : Fin 5, ((pendingRow gucciLetters none).check_guess "cacti".data).map
        (fun r => r.cells j)
      = some ([Cell.NotInWord 'G', Cell.NotInWord 'U', Cell.Correct 'C', Cell.InWord 'C',
          Cell.Correct 'I'].getD j.val (Cell.Pending none)) := by
  decide

/-- `bocce` vs `coast`. -/
theorem check_replay_bocce :
    ∀ j : Fin 5, ((pendingRow (fun j => ['B', 'O', 'C', 'C', 'E'].getD j.val ' ') none).check_guess
        "coast".data).map (fun r => r.cells j)
      = some ([Cell.NotInWord 'B', Cell.Correct 'O', Cell.InWord 'C', Cell.NotInWord 'C',
          Cell.NotInWord 'E'].getD j.val (Cell.Pending none)) := by
  decide

/-- The cells that report a hit: `InWord` (`Present`) or `Correct`. -/
def Cell.isHit : Cell → Bool
  | .InWord _ => true
  | .Correct _ => true
  | _ => false

/-- The marks that report a hit: `Present` or `Correct`. -/
def Mark.isHit : Mark → Bool
  | Mark.Present => true
  | Mark.Correct => true
  | Mark.Absent => false

theorem markCell_isHit (m : Mark) (x : Char) : (markCell m x).isHit = m.isHit := by
  cases m <;> rfl

/-- Guess positions that hold `L` and match the answer exactly. -/
def exactB (guess answer : List Char) (L : Char) (i : Nat) : Bool :=
  decide (guess.get? i = some L ∧ answer.get? i = some L)

/-- Guess positions that hold `L` but differ from the answer. -/
def missLB (guess answer : List Char) (L : Char) (i : Nat) : Bool :=
  decide (guess.get? i = some L ∧ ¬ answer.get? i = some L)

theorem exactMatches_eq (guess answer : List Char) (L : Char) :
    exactMatches guess answer L
      = ((List.range guess.length).filter (exactB guess answer L)).length := rfl

theorem earlierMisses_eq (guess answer : List Char) (L : Char) (i : Nat) :
    earlierMisses guess answer L i
      = ((List.range i).filter (missLB guess answer L)).length := rfl

/-- Filtering the positions of `Fin 5` by a numeric predicate counts the same
as filtering `range 5`. -/
theorem length_filter_finRange (p : Nat → Bool) :
    ((List.finRange 5).filter (fun j => p j.val)).length
      = ((List.range 5).filter p).length := by
  have h : (List.finRange 5).map Fin.val = List.range 5 := by decide
  calc ((List.finRange 5).filter (fun j => p j.val)).length
      = (((List.finRange 5).filter (p ∘ Fin.val)).map Fin.val).length :=
        (List.length_map _ _).symm
    _ = (((List.finRange 5).map Fin.val).filter p).length := by rw [List.filter_map]
    _ = ((List.range 5).filter p).length := by rw [h]

/-- Pass 2 hands out `Present` to the first `A - E` misses: the number of
misses whose counter is still below `A` is `min (A - E) (number of misses)`. -/
theorem marked_prefix_count (missB : Nat → Bool) (E A : Nat) :
    ∀ n, ((List.range n).filter
        (fun i => missB i && decide (E + ((List.range i).filter missB).length < A))).length
      = min (A - E) (((List.range n).filter missB).length) := by
  intro n
  induction n with
  | zero => simp
  | succ m ih =>
    rw [List.range_succ, List.filter_append, List.filter_append,
      List.length_append, List.length_append, ih]
    cases hm : missB m with
    | false =>
      have e1 : List.filter (fun i => missB i
          && decide (E + ((List.range i).filter missB).length < A)) [m] = [] := by
        simp [hm]
      have e2 : List.filter missB [m] = [] := by simp [hm]
      rw [e1, e2]
      simp
    | true =>
      have e2 : List.filter missB [m] = [m] := by simp [hm]
      rw [e2]
      by_cases hc : E + ((List.range m).filter missB).length < A
      · have e1 : List.filter (fun i => missB i
            && decide (E + ((List.range i).filter missB).length < A)) [m] = [m] := by
          simp [hm, hc]
        rw [e1]
        simp only [List.length_cons, List.length_nil]
        omega
      · have e1 : List.filter (fun i => missB i
            && decide (E + ((List.range i).filter missB).length < A)) [m] = [] := by
          simp [hm, hc]
        rw [e1]
        simp only [List.length_cons, List.length_nil]
        omega

/-- Unfolding `specClassify` at a position whose guess letter is known. -/
theorem specClassify_some (guess answer : List Char) (i : Nat) (L : Char)
    (hj : guess.get? i = some L) :
    specClassify guess answer i
      = if answer.count L = 0 then Mark.Absent
        else if answer.get? i = some L then Mark.Correct
        else if consumed guess answer L i < answer.count L then Mark.Present
        else Mark.Absent := by
  unfold specClassify
  rw [hj]

/-- C2: for every 5-letter guess and 5-letter answer and every letter `L`,
the number of guess positions holding `L` that `check_guess` marks `Correct`
or `Present` is at most the number of occurrences of `L` in the answer. -/
theorem check_guess_never_exceeds_answer_count (letters : Fin 5 → Char)
    (cc : Option Nat) (answer : List Char) (ha : answer.length = 5) (L : Char)
    (row' : BoardRow)
    (h : (pendingRow letters cc).check_guess answer = some row') :
    ((List.finRange 5).filter
        (fun j => decide ((lowerWord letters).get? j.val = some L)
          && (row'.cells j).isHit)).length
      ≤ answer.count L := by
  have hrow : ∀ j : Fin 5, row'.cells j
      = markCell (specClassify (lowerWord letters) answer j.val) (letters j) := by
    have h0 : (pendingRow letters cc).check_guess answer
        = some { pendingRow letters cc with
            cells := checkGuessCells (pendingRow letters cc).cells (lowerWord letters) answer } :=
      rfl
    rw [h0] at h
    have h1 := Option.some.inj h
    intro j
    rw [← h1]
    exact checkGuessCells_of_cells _ letters answer (fun _ => rfl) j
  have hcongr : (List.finRange 5).filter
        (fun j => decide ((lowerWord letters).get? j.val = some L) && (row'.cells j).isHit)
      = (List.finRange 5).filter
        (fun j => (fun i => decide ((lowerWord letters).get? i = some L)
            && (specClassify (lowerWord letters) answer i).isHit) j.val) := by
    apply List.filter_congr
    intro j _
    rw [hrow j, markCell_isHit]
  rw [hcongr, length_filter_finRange
    (fun i => decide ((lowerWord letters).get? i = some L)
      && (specClassify (lowerWord letters) answer i).isHit)]
  by_cases h0 : answer.count L = 0
  · have hz : (List.range 5).filter
        (fun i => decide ((lowerWord letters).get? i = some L)
          && (specClassify (lowerWord letters) answer i).isHit) = [] := by
      rw [List.filter_eq_nil_iff]
      intro i _
      by_cases hgi : (lowerWord letters).get? i = some L
      · have hgi' : (lowerWord letters)[i]? = some L := by
          rw [← List.get?_eq_getElem?]
          exact hgi
        have hs : specClassify (lowerWord letters) answer i = Mark.Absent := by
          rw [specClassify_some (lowerWord letters) answer i L hgi, if_pos h0]
        simp [hgi', hs, Mark.isHit]
      · have hgi' : ¬ (lowerWord letters)[i]? = some L := by
          rw [← List.get?_eq_getElem?]
          exact hgi
        simp [hgi']
    rw [hz]
    simp
  · have hsplit : (List.range 5).filter
          (fun i => decide ((lowerWord letters).get? i = some L)
            && (specClassify (lowerWord letters) answer i).isHit)
        = (List.range 5).filter
          (fun i => exactB (lowerWord letters) answer L i
            || (missLB (lowerWord letters) answer L i
              && decide (exactMatches (lowerWord letters) answer L
                  + ((List.range i).filter (missLB (lowerWord letters) answer L)).length
                  < answer.count L))) := by
      apply List.filter_congr
      intro i _
      by_cases hgi : (lowerWord letters).get? i = some L
      · have hgi' : (lowerWord letters)[i]? = some L := by
          rw [← List.get?_eq_getElem?]
          exact hgi
        have hs := specClassify_some (lowerWord letters) answer i L hgi
        rw [if_neg h0] at hs
        by_cases hai : answer.get? i = some L
        · have hai' : answer[i]? = some L := by
            rw [← List.get?_eq_getElem?]
            exact hai
          rw [hs, if_pos hai]
          simp [Mark.isHit, exactB, missLB, hgi', hai']
        · have hai' : ¬ answer[i]? = some L := by
            rw [← List.get?_eq_getElem?]
            exact hai
          rw [hs, if_neg hai]
          have hcons := consumed_eq (lowerWord letters) answer L i
          by_cases hlt : exactMatches (lowerWord letters) answer L
              + earlierMisses (lowerWord letters) answer L i < answer.count L
          · rw [if_pos (by rw [hcons]; omega)]
            rw [earlierMisses_eq] at hlt
            simp [Mark.isHit, exactB, missLB, hgi', hai', hlt]
          · rw [if_neg (by rw [hcons]; omega)]
            rw [earlierMisses_eq] at hlt
            simp [Mark.isHit, exactB, missLB, hgi', hai', hlt]
      · have hgi' : ¬ (lowerWord letters)[i]? = some L := by
          rw [← List.get?_eq_getElem?]
          exact hgi
        simp [exactB, missLB, hgi']
    rw [hsplit]
    rw [filterLen_or _ _ _ (by
      intro i _ hc
      obtain ⟨he, hp⟩ := hc
      simp only [Bool.and_eq_true] at hp
      have h1 := of_decide_eq_true he
      have h2 := of_decide_eq_true hp.1
      exact h2.2 h1.2)]
    have hpart2 := marked_prefix_count (missLB (lowerWord letters) answer L)
      (exactMatches (lowerWord letters) answer L) (answer.count L) 5
    have hE' : ((List.range 5).filter (exactB (lowerWord letters) answer L)).length
        = exactMatches (lowerWord letters) answer L := by
      rw [exactMatches_eq]
      rfl
    have hEA : exactMatches (lowerWord letters) answer L ≤ answer.count L :=
      exactMatches_le_count _ _ _
    rw [hpart2, hE']
    omega

/-- The row `GUCCI` after `check_guess` against `cacti`. -/
def gucciRowChecked : BoardRow :=
  { pendingRow gucciLetters none with
    cells := checkGuessCells (pendingRow gucciLetters none).cells
      (lowerWord gucciLetters) "cacti".data }

theorem check_guess_never_exceeds_answer_count_witness :
    ("cacti".data.length = 5)
      ∧ ((pendingRow gucciLetters none).check_guess "cacti".data = some gucciRowChecked)
      ∧ ((List.finRange 5).filter
          (fun j => decide ((lowerWord gucciLetters).get? j.val = some 'c')
            && (gucciRowChecked.cells j).isHit)).length
        ≤ "cacti".data.count 'c' :=
  ⟨rfl, rfl,
    check_guess_never_exceeds_answer_count gucciLetters none "cacti".data rfl 'c'
      gucciRowChecked rfl⟩

/-! ## Game-level unfolding lemmas -/

theorem Game.try_accept_letter_def (g : Game) (c : Char) :
    g.try_accept_letter c
      = if isAsciiAlphabetic c then
          (((g.clear_message.rows g.clear_message.current_row).try_accept_letter
              (asciiToUpper c)).1,
            g.clear_message.setCurrentRow
              ((g.clear_message.rows g.clear_message.current_row).try_accept_letter
                (asciiToUpper c)).2)
        else (false, g.clear_message) := rfl

theorem Game.try_delete_letter_def (g : Game) :
    g.try_delete_letter
      = (((g.clear_message.rows g.clear_message.current_row).try_delete_letter).1,
          g.clear_message.setCurrentRow
            ((g.clear_message.rows g.clear_message.current_row).try_delete_letter).2) := rfl

theorem BoardRow.try_accept_letter_full (r : BoardRow) (u : Char)
    (h : r.current_cell = some 5) : r.try_accept_letter u = (false, r) := by
  unfold BoardRow.try_accept_letter
  rw [h]
  rfl

theorem BoardRow.try_delete_letter_empty (r : BoardRow)
    (h : r.current_cell = some 0) : r.try_delete_letter = (false, r) := by
  unfold BoardRow.try_delete_letter
  rw [h]
  rfl

theorem BoardRow.try_delete_letter_full (r : BoardRow)
    (h : r.current_cell = some 5) :
    r.try_delete_letter
      = (true, { r with
          current_cell := some 4
          cells := setCell r.cells 4 (fun _ => Cell.Pending none) }) := by
  unfold BoardRow.try_delete_letter
  rw [h]
  rfl

theorem Game.setCurrentRow_self (g : Game) :
    g.setCurrentRow (g.rows g.current_row) = g := by
  unfold Game.setCurrentRow
  have h : (fun i => if i = g.current_row then g.rows g.current_row else g.rows i)
      = g.rows := by
    funext i
    by_cases hi : i = g.current_row
    · rw [if_pos hi, hi]
    · rw [if_neg hi]
  rw [h]

theorem Game.setCurrentRow_rows_at (g : Game) (r : BoardRow) (i : Fin 6)
    (h : i = g.current_row) : (g.setCurrentRow r).rows i = r := by
  unfold Game.setCurrentRow
  exact if_pos h

theorem Game.try_submit_guess_complete (g : Game) (guess : List Char)
    (h : (g.rows g.current_row).get_final_word = some guess) :
    g.try_submit_guess = g.clear_message.submitCompleteRow guess := by
  unfold Game.try_submit_guess
  have h' : (g.clear_message.rows g.clear_message.current_row).get_final_word
      = some guess := h
  rw [h']

/-- Guessing the answer itself classifies every position `Correct`. -/
theorem specClassify_self (guess : List Char) (j : Nat) (L : Char)
    (hj : guess.get? j = some L) : specClassify guess guess j = Mark.Correct := by
  rw [specClassify_some guess guess j L hj]
  have hpos : 0 < guess.count L := List.count_pos_iff.mpr (List.get?_mem hj)
  rw [if_neg (by omega), if_pos hj]

/-! ## Demonstration games used by witnesses and counterexamples -/

/-- A word bank instance: answer pool `heart`, extended list `ghost`. -/
def demoWords : Words := Words.new ["heart".data] ["ghost".data]

/-- Feed the letters of a word to the engine one key at a time. -/
def typeWord (g : Game) (w : List Char) : Game :=
  w.foldl (fun g c => (g.try_accept_letter c).2) g

/-- A fresh game whose secret answer is `heart`. -/
def heartGame : Game := Game.new demoWords "heart".data

/-- The fresh game with the word `heart` typed into row 0. -/
def typedHeart : Game := typeWord heartGame "heart".data

/-- The state directly after the winning submission. -/
def wonGame : Game := (typedHeart.try_submit_guess).2

/-- The fresh game with `ghost` typed into row 0. -/
def typedGhost : Game := typeWord heartGame "ghost".data

/-- The fresh game with `zzzzz` (not a word) typed into row 0. -/
def typedZ : Game := typeWord heartGame "zzzzz".data

/-- Type a word and submit it. -/
def submitWordG (g : Game) (w : List Char) : Game :=
  ((typeWord g w).try_submit_guess).2

/-- The game after five wrong submissions of `ghost` (active row 5). -/
def lastRowGame : Game :=
  submitWordG (submitWordG (submitWordG (submitWordG (submitWordG heartGame
    "ghost".data) "ghost".data) "ghost".data) "ghost".data) "ghost".data

/-- The last row filled with `ghost`, one submission from losing. -/
def fullLastRow : Game := typeWord lastRowGame "ghost".data

/-- A game with an advisory message on display. -/
def gMsg : Game := heartGame.set_message "hi"

/-- The letters of the winning word as typed (uppercased). -/
def heartLetters : Fin 5 → Char := fun j => ['H', 'E', 'A', 'R', 'T'].getD j.val ' '

/-- The letters of `ghost` as typed. -/
def ghostLetters : Fin 5 → Char := fun j => ['G', 'H', 'O', 'S', 'T'].getD j.val ' '

/-- The letters of the non-word `zzzzz` as typed. -/
def zLetters : Fin 5 → Char := fun _ => 'Z'

/-- C10: every event handler clears the advisory message before any
validation: the accept and delete handlers always leave the message empty,
a submission on an incomplete row clears the message yet returns `false`,
and a rejected (non-alphabetic) accept clears the message while returning
`false`. -/
theorem handlers_clear_message_first (g : Game) (c : Char) :
    (g.try_accept_letter c).2.display_message = none
      ∧ (g.try_delete_letter).2.display_message = none
      ∧ ((g.rows g.current_row).get_final_word = none →
          g.try_submit_guess = (false, g.clear_message))
      ∧ (isAsciiAlphabetic c = false →
          g.try_accept_letter c = (false, g.clear_message)) := by
  refine ⟨?_, ?_, ?_, ?_⟩
  · rw [Game.try_accept_letter_def]
    by_cases hA : isAsciiAlphabetic c = true
    · rw [if_pos hA]
      rfl
    · rw [if_neg hA]
      rfl
  · rfl
  · intro h
    unfold Game.try_submit_guess
    have h' : (g.clear_message.rows g.clear_message.current_row).get_final_word = none := h
    rw [h']
  · intro hA
    rw [Game.try_accept_letter_def, if_neg (by rw [hA]; exact Bool.false_ne_true)]

theorem handlers_clear_message_first_witness :
    (gMsg.try_accept_letter '1').2.display_message = none
      ∧ (gMsg.try_delete_letter).2.display_message = none
      ∧ gMsg.try_submit_guess = (false, gMsg.clear_message)
      ∧ gMsg.try_accept_letter '1' = (false, gMsg.clear_message) :=
  ⟨(handlers_clear_message_first gMsg '1').1,
    (handlers_clear_message_first gMsg '1').2.1,
    (handlers_clear_message_first gMsg '1').2.2.1 rfl,
    (handlers_clear_message_first gMsg '1').2.2.2 rfl⟩

/-- C4 amended: `try_accept_letter` with a non-alphabetic character or with
the active row's cursor at 5, and `try_delete_letter` with the cursor at 0,
return `false` and change nothing — except that they unconditionally clear
the advisory message first. -/
theorem rejected_edits_only_clear_message (g : Game) (c : Char) :
    (isAsciiAlphabetic c = false → g.try_accept_letter c = (false, g.clear_message))
      ∧ ((g.rows g.current_row).current_cell = some 5 →
          g.try_accept_letter c = (false, g.clear_message))
      ∧ ((g.rows g.current_row).current_cell = some 0 →
          g.try_delete_letter = (false, g.clear_message)) := by
  refine ⟨?_, ?_, ?_⟩
  · intro hA
    rw [Game.try_accept_letter_def, if_neg (by rw [hA]; exact Bool.false_ne_true)]
  · intro hcur
    rw [Game.try_accept_letter_def]
    by_cases hA : isAsciiAlphabetic c = true
    · have hcur' : (g.clear_message.rows g.clear_message.current_row).current_cell
          = some 5 := hcur
      rw [if_pos hA, BoardRow.try_accept_letter_full _ _ hcur']
      exact congrArg (Prod.mk false) (Game.setCurrentRow_self g.clear_message)
    · rw [if_neg hA]
  · intro hcur
    have hcur' : (g.clear_message.rows g.clear_message.current_row).current_cell
        = some 0 := hcur
    rw [Game.try_delete_letter_def, BoardRow.try_delete_letter_empty _ hcur']
    exact congrArg (Prod.mk false) (Game.setCurrentRow_self g.clear_message)

theorem rejected_edits_only_clear_message_witness :
    (heartGame.try_accept_letter '1' = (false, heartGame.clear_message))
      ∧ (typedHeart.try_accept_letter 'a' = (false, typedHeart.clear_message))
      ∧ (heartGame.try_delete_letter = (false, heartGame.clear_message)) :=
  ⟨(rejected_edits_only_clear_message heartGame '1').1 (by decide),
    (rejected_edits_only_clear_message typedHeart 'a').2.1 (by decide),
    (rejected_edits_only_clear_message heartGame 'x').2.2 (by decide)⟩

/-- C4 counterexample: with an advisory message pending, a rejected
`try_accept_letter` (non-alphabetic key) returns `false` — yet it mutates
the game state, clearing the message. -/
theorem rejected_accept_clears_pending_message :
    (gMsg.try_accept_letter '1').1 = false
      ∧ (gMsg.try_accept_letter '1').2.display_message ≠ gMsg.display_message :=
  ⟨rfl, by decide⟩

/-- Reachability of game states through the engine interface: `Game::new`
with an answer drawn from the answer pool, followed by any sequence of the
three key handlers. -/
inductive Reachable (words : Words) : Game → Prop where
  | init (answer : List Char) (h : answer ∈ words.answers) :
      Reachable words (Game.new words answer)
  | accept (g : Game) (c : Char) (h : Reachable words g) :
      Reachable words (g.try_accept_letter c).2
  | delete (g : Game) (h : Reachable words g) :
      Reachable words (g.try_delete_letter).2
  | submit (g : Game) (h : Reachable words g) :
      Reachable words (g.try_submit_guess).2

/-- The winning state is reached by typing `heart` and submitting. -/
theorem wonGame_reachable : Reachable demoWords wonGame := by
  have h0 : Reachable demoWords heartGame := Reachable.init "heart".data (by decide)
  exact Reachable.submit _ (Reachable.accept _ 't' (Reachable.accept _ 'r'
    (Reachable.accept _ 'a' (Reachable.accept _ 'e' (Reachable.accept _ 'h' h0)))))

/-- C3 counterexample: in a reachable won state, `try_delete_letter` returns
`true` and overwrites a cell that had been finalized `Correct` — the claim
that editing operations return `false` and leave every cell unchanged in a
terminal state fails on the engine. -/
theorem terminal_delete_mutates_finalized_cell :
    Reachable demoWords wonGame
      ∧ wonGame.has_won = some true
      ∧ (wonGame.try_delete_letter).1 = true
      ∧ ((wonGame.try_delete_letter).2.rows wonGame.current_row).cells 4
          ≠ (wonGame.rows wonGame.current_row).cells 4 :=
  ⟨wonGame_reachable, by decide, by decide, by decide⟩

/-- C3 amended: in any state whose active row cursor sits at 5 — which is how
every reachable terminal state is left — `try_accept_letter` returns `false`
and leaves every cell unchanged, but `try_delete_letter` returns `true` and
resets cell 4 of the active row to empty even though it was finalized: the
terminal-state guard lives in the app's key dispatch (`app.rs`), which stops
forwarding edit events once `has_won` is set, not in the `Game` engine. -/
theorem terminal_state_editing_behavior (g : Game) (b : Bool) (c : Char)
    (hterm : g.has_won = some b)
    (hcur : (g.rows g.current_row).current_cell = some 5) :
    (g.try_accept_letter c).1 = false
      ∧ (∀ i j, ((g.try_accept_letter c).2.rows i).cells j = (g.rows i).cells j)
      ∧ (g.try_delete_letter).1 = true
      ∧ ((g.try_delete_letter).2.rows g.current_row).cells 4 = Cell.Pending none := by
  have hcur' : (g.clear_message.rows g.clear_message.current_row).current_cell
      = some 5 := hcur
  refine ⟨?_, ?_, ?_, ?_⟩
  · rw [Game.try_accept_letter_def]
    by_cases hA : isAsciiAlphabetic c = true
    · rw [if_pos hA, BoardRow.try_accept_letter_full _ _ hcur']
    · rw [if_neg hA]
  · intro i j
    rw [Game.try_accept_letter_def]
    by_cases hA : isAsciiAlphabetic c = true
    · rw [if_pos hA, BoardRow.try_accept_letter_full _ _ hcur']
      rw [Game.setCurrentRow_self g.clear_message]
      rfl
    · rw [if_neg hA]
      rfl
  · rw [Game.try_delete_letter_def, BoardRow.try_delete_letter_full _ hcur']
  · rw [Game.try_delete_letter_def, BoardRow.try_delete_letter_full _ hcur']
    rw [Game.setCurrentRow_rows_at g.clear_message _ g.current_row rfl]
    rfl

theorem terminal_state_editing_behavior_witness :
    (wonGame.try_accept_letter 'x').1 = false
      ∧ (∀ i j, ((wonGame.try_accept_letter 'x').2.rows i).cells j
          = (wonGame.rows i).cells j)
      ∧ (wonGame.try_delete_letter).1 = true
      ∧ ((wonGame.try_delete_letter).2.rows wonGame.current_row).cells 4
          = Cell.Pending none :=
  terminal_state_editing_behavior wonGame true 'x' (by decide) (by decide)

theorem enterNextRow_cursor (g3 : Game) :
    ((g3.enterNextRow).rows (g3.enterNextRow).current_row).current_cell = some 0 := by
  have hidx : (g3.enterNextRow).current_row = g3.current_row := rfl
  rw [hidx]
  unfold Game.enterNextRow
  rw [Game.setCurrentRow_rows_at g3 _ g3.current_row rfl]

/-- C5: submitting a fully filled row whose word is a valid guess either wins
(all five cells finalized `Correct`, outcome `won`, regardless of the row
index), loses when the active row index is already 5, or advances the active
row by one with the new cursor at 0 and the outcome still in progress. -/
theorem submit_valid_guess_outcomes (g : Game) (letters : Fin 5 → Char)
    (hrow : ∀ j, (g.rows g.current_row).cells j = Cell.Pending (some (letters j)))
    (hvalid : g.words.valid_guess (lowerWord letters) = true)
    (hprog : g.has_won = none) :
    (lowerWord letters = g.answer →
        (g.try_submit_guess).1 = true
          ∧ (g.try_submit_guess).2.has_won = some true
          ∧ ∀ j, ((g.try_submit_guess).2.rows g.current_row).cells j
              = Cell.Correct (letters j))
      ∧ (lowerWord letters ≠ g.answer → g.current_row.val = 5 →
          (g.try_submit_guess).2.has_won = some false ∧ (g.try_submit_guess).1 = true)
      ∧ (lowerWord letters ≠ g.answer → g.current_row.val < 5 →
          (g.try_submit_guess).2.current_row.val = g.current_row.val + 1
            ∧ ((g.try_submit_guess).2.rows
                (g.try_submit_guess).2.current_row).current_cell = some 0
            ∧ (g.try_submit_guess).2.has_won = none
            ∧ (g.try_submit_guess).1 = true) := by
  have hword : (g.rows g.current_row).get_final_word = some (lowerWord letters) :=
    get_final_word_of_cells _ letters hrow
  have hsub := Game.try_submit_guess_complete g (lowerWord letters) hword
  have hvalid' : g.clear_message.words.valid_guess (lowerWord letters) = true := hvalid
  rw [hsub]
  unfold Game.submitCompleteRow
  rw [if_neg (by simp [hvalid'])]
  refine ⟨?_, ?_, ?_⟩
  · intro heq
    rw [if_pos (show lowerWord letters
        = (g.clear_message.checkCurrentRow (lowerWord letters)).answer from heq)]
    refine ⟨rfl, rfl, ?_⟩
    intro j
    have hrows : (g.clear_message.checkCurrentRow (lowerWord letters)).rows g.current_row
        = { g.clear_message.rows g.clear_message.current_row with
            cells := checkGuessCells (g.clear_message.rows g.clear_message.current_row).cells
              (lowerWord letters) g.clear_message.answer } := by
      unfold Game.checkCurrentRow
      exact Game.setCurrentRow_rows_at g.clear_message _ g.current_row rfl
    show ((g.clear_message.checkCurrentRow (lowerWord letters)).rows g.current_row).cells j
        = Cell.Correct (letters j)
    rw [hrows]
    show checkGuessCells (g.rows g.current_row).cells (lowerWord letters) g.answer j
        = Cell.Correct (letters j)
    rw [show g.answer = lowerWord letters from heq.symm]
    rw [checkGuessCells_of_cells (g.rows g.current_row).cells letters (lowerWord letters)
      hrow j]
    rw [specClassify_self (lowerWord letters) j.val (asciiToLower (letters j))
      (lowerWord_get? letters j)]
    rfl
  · intro hne h5
    rw [if_neg (show ¬ lowerWord letters
        = (g.clear_message.checkCurrentRow (lowerWord letters)).answer from hne)]
    rw [dif_neg (show ¬ ((g.clear_message.checkCurrentRow
        (lowerWord letters)).current_row.val < 5) from by
      have h5' : (g.clear_message.checkCurrentRow
          (lowerWord letters)).current_row.val = 5 := h5
      omega)]
    exact ⟨rfl, rfl⟩
  · intro hne hlt
    rw [if_neg (show ¬ lowerWord letters
        = (g.clear_message.checkCurrentRow (lowerWord letters)).answer from hne)]
    rw [dif_pos (show (g.clear_message.checkCurrentRow
        (lowerWord letters)).current_row.val < 5 from hlt)]
    refine ⟨rfl, ?_, hprog, rfl⟩
    exact enterNextRow_cursor _

theorem submit_valid_guess_outcomes_witness :
    ((typedHeart.try_submit_guess).1 = true
        ∧ (typedHeart.try_submit_guess).2.has_won = some true
        ∧ ∀ j, ((typedHeart.try_submit_guess).2.rows typedHeart.current_row).cells j
            = Cell.Correct (heartLetters j))
      ∧ ((fullLastRow.try_submit_guess).2.has_won = some false
        ∧ (fullLastRow.try_submit_guess).1 = true)
      ∧ ((typedGhost.try_submit_guess).2.current_row.val
            = typedGhost.current_row.val + 1
        ∧ ((typedGhost.try_submit_guess).2.rows
            (typedGhost.try_submit_guess).2.current_row).current_cell = some 0
        ∧ (typedGhost.try_submit_guess).2.has_won = none
        ∧ (typedGhost.try_submit_guess).1 = true) :=
  ⟨(submit_valid_guess_outcomes typedHeart heartLetters (by decide) (by decide)
      (by decide)).1 (by decide),
    (submit_valid_guess_outcomes fullLastRow ghostLetters (by decide) (by decide)
      (by decide)).2.1 (by decide) (by decide),
    (submit_valid_guess_outcomes typedGhost ghostLetters (by decide) (by decide)
      (by decide)).2.2 (by decide) (by decide)⟩

/-- C6: submitting a fully filled row whose word is not in the valid-guess
set sets the advisory message `'<word>' is not a valid word!`, leaves every
cell of the row still `Pending` with the same letters, leaves the active row
index and its cursor unchanged, and does not change the outcome. -/
theorem submit_unknown_word_sets_advisory_message (g : Game) (letters : Fin 5 → Char)
    (hrow : ∀ j, (g.rows g.current_row).cells j = Cell.Pending (some (letters j)))
    (hinvalid : g.words.valid_guess (lowerWord letters) = false) :
    (g.try_submit_guess).2.display_message
        = some (invalidWordMessage (lowerWord letters))
      ∧ (∀ j, ((g.try_submit_guess).2.rows g.current_row).cells j
          = Cell.Pending (some (letters j)))
      ∧ (g.try_submit_guess).2.current_row = g.current_row
      ∧ ((g.try_submit_guess).2.rows g.current_row).current_cell
          = (g.rows g.current_row).current_cell
      ∧ (g.try_submit_guess).2.has_won = g.has_won := by
  have hword : (g.rows g.current_row).get_final_word = some (lowerWord letters) :=
    get_final_word_of_cells _ letters hrow
  have hsub := Game.try_submit_guess_complete g (lowerWord letters) hword
  have hinvalid' : g.clear_message.words.valid_guess (lowerWord letters) = false :=
    hinvalid
  rw [hsub]
  unfold Game.submitCompleteRow
  rw [if_pos hinvalid']
  exact ⟨rfl, fun j => hrow j, rfl, rfl, rfl⟩

theorem submit_unknown_word_sets_advisory_message_witness :
    (typedZ.try_submit_guess).2.display_message
        = some (invalidWordMessage (lowerWord zLetters))
      ∧ (∀ j, ((typedZ.try_submit_guess).2.rows typedZ.current_row).cells j
          = Cell.Pending (some (zLetters j)))
      ∧ (typedZ.try_submit_guess).2.current_row = typedZ.current_row
      ∧ ((typedZ.try_submit_guess).2.rows typedZ.current_row).current_cell
          = (typedZ.rows typedZ.current_row).current_cell
      ∧ (typedZ.try_submit_guess).2.has_won = typedZ.has_won :=
  submit_unknown_word_sets_advisory_message typedZ zLetters (by decide) (by decide)

/-- C7 amended: `valid_guess` is exact (case-sensitive) membership in the
valid-guess set, which is the union of the answer pool and the extended
guess list — so every answer-pool word, in its stored (lowercase) spelling,
is a valid guess.  Case-insensitivity holds only because the engine
lowercases every submitted word (`get_final_word`) before validating it. -/
theorem valid_guess_iff_mem_union (la ta : List (List Char)) (w : List Char) :
    (Words.new la ta).valid_guess w = true ↔ (w ∈ la ∨ w ∈ ta) := by
  show ((la ++ ta).contains w = true) ↔ _
  rw [List.elem_iff, List.mem_append]

/-- C7 counterexample: with the (lowercase) dictionary of the spec, the
uppercase spelling `HEART` is case-insensitively a member of the valid-guess
set, yet `valid_guess` rejects it: the membership test is case-sensitive. -/
theorem valid_guess_is_case_sensitive :
    (∃ v ∈ (Words.new ["heart".data] []).valid_guesses,
        "HEART".data.map asciiToLower = v.map asciiToLower)
      ∧ (Words.new ["heart".data] []).valid_guess "HEART".data = false :=
  ⟨⟨"heart".data, by decide, by decide⟩, by decide⟩
